import Mathlib

/-!
Shallow embedding of the zoo repository's core: the `WorldGrid` tile grid
(`src/world/WorldGrid.ts`), the collision / placement utilities
(`src/utils/collision.ts`), and the entity/component store
(`src/entities/Entity.ts`, `src/entities/EntityManager.ts`).

JavaScript numbers used as grid coordinates are modelled as `Int`
(all the code paths involved only ever handle integer values; `Math.floor`
on an integer is the identity).  JS `Map` objects are modelled as
association lists that mirror `Map.set` / `Map.delete` semantics, and JS
`Set` objects as duplicate-free lists.  A `throw` is modelled with
`Except`; functions that cannot throw keep their plain return type.
-/

/-- `TileType` from `src/utils/types.ts`: `'grass' | 'path' | 'water' | 'building'`. -/
inductive TileType where
  | grass
  | path
  | water
  | building
deriving DecidableEq, Repr

/-- `EntityId` from `src/utils/types.ts` (`string`). -/
abbrev EntityId := String

/-- `TileData` from `src/utils/types.ts`. -/
structure TileData where
  type : TileType
  occupiedBy : Option EntityId
  walkable : Bool
  buildable : Bool
deriving DecidableEq, Repr

/-- `Position` from `src/utils/types.ts`. Coordinates are integers. -/
structure Position where
  x : Int
  y : Int
deriving DecidableEq, Repr

/-- `Size` from `src/utils/types.ts`. -/
structure Size where
  width : Int
  height : Int
deriving DecidableEq, Repr

/-- The ascending list of integers `a, a+1, ..., b-1`; the index set of a JS
loop `for (let i = a; i < b; i++)`. Empty when `b ≤ a`. -/
def intRange (a b : Int) : List Int :=
  (List.range (b - a).toNat).map (fun i : Nat => a + (i : Int))

/-- `isPositionValid` from `src/utils/helpers.ts`:
`pos.x >= 0 && pos.x < width && pos.y >= 0 && pos.y < height`. -/
def isPositionValid (pos : Position) (width height : Int) : Bool :=
  0 ≤ pos.x && pos.x < width && 0 ≤ pos.y && pos.y < height

/-- The `WorldGrid` class state (`src/world/WorldGrid.ts`): `width`, `height`
and the row-major `tiles` array. Nothing forces `tiles` to match the declared
dimensions — `deserialize` can install an arbitrary array. -/
structure WorldGrid where
  width : Int
  height : Int
  tiles : List (List TileData)
deriving DecidableEq, Repr

namespace WorldGrid

/-- The default tile produced by `initializeGrid`. -/
def defaultTile : TileData :=
  { type := .grass, occupiedBy := none, walkable := true, buildable := true }

/-- `initializeGrid`: a `height × width` array of default grass tiles. -/
def initializeGrid (width height : Int) : List (List TileData) :=
  (List.range height.toNat).map (fun _ =>
    (List.range width.toNat).map (fun _ => defaultTile))

/-- The `WorldGrid` constructor. -/
def make (width height : Int) : WorldGrid :=
  { width := width, height := height, tiles := initializeGrid width height }

/-- `isValidGridPosition`. -/
def isValidGridPosition (g : WorldGrid) (position : Position) : Bool :=
  isPositionValid position g.width g.height

/-- `getTile`: `null` out of bounds, else `this.tiles[y][x]`. The JS
distinction between a `null` result, an `undefined` element and a thrown
`TypeError` (both only reachable through a malformed `deserialize` input)
is collapsed to `none` here; `getTileJs` below keeps the distinction. -/
def getTile (g : WorldGrid) (position : Position) : Option TileData :=
  if g.isValidGridPosition position then
    (g.tiles.get? position.y.toNat).bind (fun row => row.get? position.x.toNat)
  else
    none

/-- The possible outcomes of the JS expression `this.tiles[y][x]` as
written in `getTile`, kept apart: the explicit `null` for out-of-bounds,
an `undefined` element read past the end of a row, and the `TypeError`
thrown when the row itself is missing. -/
inductive JsTileGet where
  | found (t : TileData)
  | jsNull
  | undef
  | typeError
deriving DecidableEq, Repr

/-- `getTile` with full JS result semantics (see `JsTileGet`). -/
def getTileJs (g : WorldGrid) (position : Position) : JsTileGet :=
  if g.isValidGridPosition position then
    match g.tiles.get? position.y.toNat with
    | none => .typeError
    | some row =>
      match row.get? position.x.toNat with
      | none => .undef
      | some t => .found t
  else
    .jsNull

/-- `isWalkable`: `tile ? tile.walkable : false`. -/
def isWalkable (g : WorldGrid) (position : Position) : Bool :=
  match g.getTile position with
  | some tile => tile.walkable
  | none => false

/-- `isBuildable`: `tile ? tile.buildable && tile.occupiedBy === null : false`. -/
def isBuildable (g : WorldGrid) (position : Position) : Bool :=
  match g.getTile position with
  | some tile => tile.buildable && tile.occupiedBy == none
  | none => false

/-- The `(x, y)` pairs visited by the nested loops
`for (let y = pos.y; y < pos.y + size.height; y++)
   for (let x = pos.x; x < pos.x + size.width; x++)`,
in visit order. -/
def rectPositions (position : Position) (size : Size) : List Position :=
  (intRange position.y (position.y + size.height)).flatMap (fun y =>
    (intRange position.x (position.x + size.width)).map (fun x =>
      { x := x, y := y }))

/-- `isAreaAvailable`: every rectangle cell is a valid position and buildable. -/
def isAreaAvailable (g : WorldGrid) (position : Position) (size : Size) : Bool :=
  (rectPositions position size).all (fun p =>
    g.isValidGridPosition p && g.isBuildable p)

/-- The mutation `tile.occupiedBy = entityId` applied to the tile object
returned by `getTile({x, y})`, guarded by `if (tile)`: a no-op when the
position is invalid or the tile is missing. -/
def setOccupant (g : WorldGrid) (p : Position) (eid : Option EntityId) : WorldGrid :=
  if g.isValidGridPosition p then
    match g.tiles.get? p.y.toNat with
    | none => g
    | some row =>
      match row.get? p.x.toNat with
      | none => g
      | some t =>
        { g with tiles := g.tiles.set p.y.toNat (row.set p.x.toNat { t with occupiedBy := eid }) }
  else g

/-- `occupyArea`: checks `isAreaAvailable` first; on failure returns `false`
without touching the grid; on success writes `occupiedBy = entityId` over the
whole rectangle and returns `true`. -/
def occupyArea (g : WorldGrid) (position : Position) (size : Size) (entityId : EntityId) :
    Bool × WorldGrid :=
  if g.isAreaAvailable position size then
    (true, (rectPositions position size).foldl (fun g' p => g'.setOccupant p (some entityId)) g)
  else
    (false, g)

/-- `getDimensions`. -/
def getDimensions (g : WorldGrid) : Size :=
  { width := g.width, height := g.height }

/-- The serialized grid shape `{width, height, tiles}`. -/
structure Serialized where
  width : Int
  height : Int
  tiles : List (List TileData)
deriving DecidableEq, Repr

/-- `serialize`. -/
def serialize (g : WorldGrid) : Serialized :=
  { width := g.width, height := g.height, tiles := g.tiles }

/-- `deserialize`: builds `new WorldGrid(data.width, data.height)` and then
overwrites `grid.tiles = data.tiles` with no shape check. -/
def deserialize (data : Serialized) : WorldGrid :=
  { make data.width data.height with tiles := data.tiles }

end WorldGrid

/-! ### Collision / placement utilities (`src/utils/collision.ts`) -/

/-- `isAreaWithinBounds`: pure bounds arithmetic. -/
def isAreaWithinBounds (position : Position) (size : Size) (worldWidth worldHeight : Int) : Bool :=
  0 ≤ position.x && 0 ≤ position.y &&
    position.x + size.width ≤ worldWidth && position.y + size.height ≤ worldHeight

/-- `isPlacementValid`: bounds check, then `grid.isAreaAvailable`. -/
def isPlacementValid (grid : WorldGrid) (position : Position) (size : Size) : Bool :=
  let dimensions := grid.getDimensions
  if !isAreaWithinBounds position size dimensions.width dimensions.height then
    false
  else
    grid.isAreaAvailable position size

/-- The candidate cells tried by `findValidPlacementPositions` at one ring:
`dx` from `-distance` to `distance` (outer loop), `dy` likewise (inner loop),
skipping cells with `|dx| ≠ distance && |dy| ≠ distance`. -/
def ringCandidates (targetPosition : Position) (distance : Int) : List Position :=
  (intRange (-distance) (distance + 1)).flatMap (fun dx =>
    ((intRange (-distance) (distance + 1)).filter (fun dy =>
        |dx| == distance || |dy| == distance)).map (fun dy =>
      { x := targetPosition.x + dx, y := targetPosition.y + dy }))

/-- The `distance` loop of `findValidPlacementPositions`: accumulate the valid
cells of each ring and break out of the loop as soon as the accumulator is
non-empty. -/
def findValidGo (grid : WorldGrid) (targetPosition : Position) (size : Size) :
    List Int → List Position → List Position
  | [], acc => acc
  | d :: ds, acc =>
    let acc' := acc ++ (ringCandidates targetPosition d).filter
      (fun p => isPlacementValid grid p size)
    if acc'.length > 0 then acc' else findValidGo grid targetPosition size ds acc'

/-- `findValidPlacementPositions`: expanding-ring search for
`distance = 1 .. maxDistance`. -/
def findValidPlacementPositions (grid : WorldGrid) (targetPosition : Position)
    (size : Size) (maxDistance : Int) : List Position :=
  findValidGo grid targetPosition size (intRange 1 (maxDistance + 1)) []

/-- The `while (true)` loop of `getLinePositions`, with the loop-invariant
variables `x0`, `y0`, `err` as arguments and fuel supplied by the caller
(the loop always terminates; `getLinePositions_spec` below shows the fuel
chosen in `getLinePositions` is never exhausted). -/
def bresGo (x1 y1 sx sy dx dy : Int) : Nat → Int → Int → Int → List Position
  | 0, _, _, _ => []
  | n + 1, x0, y0, err =>
    { x := x0, y := y0 } ::
      (if x0 == x1 && y0 == y1 then []
       else
         let e2 := 2 * err
         let err1 := if e2 > -dy then err - dy else err
         let x0n := if e2 > -dy then x0 + sx else x0
         let err2 := if e2 < dx then err1 + dx else err1
         let y0n := if e2 < dx then y0 + sy else y0
         bresGo x1 y1 sx sy dx dy n x0n y0n err2)

/-- `getLinePositions`: Bresenham rasterization between the two (integer)
endpoints. `Math.floor` on the integer inputs is the identity. -/
def getLinePositions (startPos endPos : Position) : List Position :=
  let x0 := startPos.x
  let y0 := startPos.y
  let x1 := endPos.x
  let y1 := endPos.y
  let dx := |x1 - x0|
  let dy := |y1 - y0|
  let sx : Int := if x0 < x1 then 1 else -1
  let sy : Int := if y0 < y1 then 1 else -1
  bresGo x1 y1 sx sy dx dy (dx + dy + 1).toNat x0 y0 (dx - dy)

/-! ## Entity / component store (`src/entities/Entity.ts`, `EntityManager.ts`)

JS `Map` objects are modelled as association lists with `Map.set`
semantics (update in place, append when new); JS `Set` objects as
duplicate-free lists with `Set.add` append semantics. -/

/-- `Map.prototype.set`: replace the value in place when the key exists,
append the pair otherwise. -/
def mapSet {α : Type} (m : List (String × α)) (k : String) (v : α) : List (String × α) :=
  if m.any (fun p => p.1 == k) then
    m.map (fun p => if p.1 == k then (k, v) else p)
  else
    m ++ [(k, v)]

/-- `Map.prototype.get`. -/
def mapGet {α : Type} (m : List (String × α)) (k : String) : Option α :=
  (m.find? (fun p => p.1 == k)).map (fun p => p.2)

/-- `Map.prototype.delete` (the removal part; presence is read separately). -/
def mapDelete {α : Type} (m : List (String × α)) (k : String) : List (String × α) :=
  m.filter (fun p => p.1 != k)

/-- `Set.prototype.add`. -/
def setAdd (s : List EntityId) (x : EntityId) : List EntityId :=
  if s.contains x then s else s ++ [x]

/-- `Set.prototype.delete` (the removal part). -/
def setDelete (s : List EntityId) (x : EntityId) : List EntityId :=
  s.filter (fun y => y != x)

/-- The base `Component` interface (`src/utils/types.ts`): a `type` tag plus
tag-specific fields, abstracted into one payload field. -/
structure Component where
  type : String
  data : Nat
deriving DecidableEq, Repr

/-- The `Entity` class state. -/
structure Entity where
  id : EntityId
  components : List (String × Component)
  isActive : Bool
deriving DecidableEq, Repr

namespace Entity

/-- The `Entity` constructor, with the caller-supplied or generated id. -/
def make (id : EntityId) : Entity :=
  { id := id, components := [], isActive := true }

/-- `Entity.addComponent`: throws on an inactive entity, else
`this.components.set(component.type, component)`. -/
def addComponent (component : Component) (e : Entity) : Except String Entity :=
  if !e.isActive then
    .error ("Cannot add component to inactive entity " ++ e.id)
  else
    .ok { e with components := mapSet e.components component.type component }

/-- `Entity.hasComponent`. -/
def hasComponent (e : Entity) (type : String) : Bool :=
  (mapGet e.components type).isSome

/-- `Entity.removeComponent`: returns `false` (no throw) on an inactive
entity; else `this.components.delete(type)` and its presence result. -/
def removeComponent (type : String) (e : Entity) : Bool × Entity :=
  if !e.isActive then
    (false, e)
  else
    (e.hasComponent type, { e with components := mapDelete e.components type })

/-- `Entity.getComponentTypes`. -/
def getComponentTypes (e : Entity) : List String :=
  e.components.map (fun p => p.1)

/-- `Entity.deactivate`. -/
def deactivate (e : Entity) : Entity :=
  { e with isActive := false }

end Entity

/-- The `EntityManager` class state: the entity map and the component
registry (component type → set of entity ids). -/
structure EntityManager where
  entities : List (EntityId × Entity)
  componentRegistry : List (String × List EntityId)
deriving DecidableEq, Repr

namespace EntityManager

/-- The `EntityManager` constructor. -/
def empty : EntityManager :=
  { entities := [], componentRegistry := [] }

/-- `createEntity`: builds a fresh entity and stores it under its id with
`Map.set` — no duplicate check, so an existing entry is overwritten. -/
def createEntity (m : EntityManager) (id : EntityId) : Entity × EntityManager :=
  let entity := Entity.make id
  (entity, { m with entities := mapSet m.entities entity.id entity })

/-- `getEntity`. -/
def getEntity (m : EntityManager) (id : EntityId) : Option Entity :=
  mapGet m.entities id

/-- `registerEntityComponent`. -/
def registerEntityComponent (m : EntityManager) (entityId : EntityId)
    (componentType : String) : EntityManager :=
  let s := (mapGet m.componentRegistry componentType).getD []
  { m with componentRegistry := mapSet m.componentRegistry componentType (setAdd s entityId) }

/-- `unregisterEntityComponent`: drop the id from the type's set, deleting
the registry key when the set becomes empty. -/
def unregisterEntityComponent (m : EntityManager) (entityId : EntityId)
    (componentType : String) : EntityManager :=
  match mapGet m.componentRegistry componentType with
  | none => m
  | some s =>
    let s' := setDelete s entityId
    if s'.length == 0 then
      { m with componentRegistry := mapDelete m.componentRegistry componentType }
    else
      { m with componentRegistry := mapSet m.componentRegistry componentType s' }

/-- `removeEntity`: absent → `false`; else unregister every component type
the entity holds, deactivate it, and delete it from the map. -/
def removeEntity (m : EntityManager) (id : EntityId) : Bool × EntityManager :=
  match mapGet m.entities id with
  | none => (false, m)
  | some e =>
    let m1 := e.getComponentTypes.foldl
      (fun acc t => unregisterEntityComponent acc id t) m
    (true, { m1 with entities := mapDelete m1.entities id })

/-- `addComponentToEntity`: absent → `false`; the `try`/`catch` turns the
inactive-entity throw of `Entity.addComponent` into a plain `false`; on
success the stored entity is updated and the registry extended. -/
def addComponentToEntity (m : EntityManager) (entityId : EntityId)
    (component : Component) : Bool × EntityManager :=
  match mapGet m.entities entityId with
  | none => (false, m)
  | some e =>
    match e.addComponent component with
    | .error _ => (false, m)
    | .ok e' =>
      let m1 := { m with entities := mapSet m.entities entityId e' }
      (true, m1.registerEntityComponent entityId component.type)

/-- `removeComponentFromEntity`: absent → `false`; else
`entity.removeComponent` (whose in-place mutation the store sees), and on
success the registry entry is dropped. -/
def removeComponentFromEntity (m : EntityManager) (entityId : EntityId)
    (componentType : String) : Bool × EntityManager :=
  match mapGet m.entities entityId with
  | none => (false, m)
  | some e =>
    let r := e.removeComponent componentType
    let m1 := { m with entities := mapSet m.entities entityId r.2 }
    if r.1 then
      (true, m1.unregisterEntityComponent entityId componentType)
    else
      (false, m1)

/-- The set of ids registered under a component type (empty when the key is
absent, as in `getEntityCountByComponent`). -/
def registryIds (m : EntityManager) (componentType : String) : List EntityId :=
  (mapGet m.componentRegistry componentType).getD []

end EntityManager

/-- One public mutation of the store, for reasoning about call sequences. -/
inductive EOp where
  | create (id : EntityId)
  | addComp (id : EntityId) (c : Component)
  | removeComp (id : EntityId) (t : String)
  | removeEnt (id : EntityId)
deriving DecidableEq, Repr

/-- Apply one operation (dropping the returned value). -/
def applyOp (m : EntityManager) : EOp → EntityManager
  | .create id => (m.createEntity id).2
  | .addComp id c => (m.addComponentToEntity id c).2
  | .removeComp id t => (m.removeComponentFromEntity id t).2
  | .removeEnt id => (m.removeEntity id).2

/-- Run a sequence of operations. -/
def runOps (m : EntityManager) (ops : List EOp) : EntityManager :=
  ops.foldl applyOp m

/-- Every `create` in the sequence supplies an id not present in the store
at the moment it runs. -/
def freshCreates (m : EntityManager) : List EOp → Bool
  | [] => true
  | op :: ops =>
    (match op with
     | .create id => (m.getEntity id).isNone
     | _ => true) && freshCreates (applyOp m op) ops

/-- The index invariant: an id is registered under a type exactly when the
store holds an active entity with that id carrying a component of that type. -/
def RegistryAccurate (m : EntityManager) : Prop :=
  ∀ (t : String) (i : EntityId),
    i ∈ m.registryIds t ↔
      ∃ e, m.getEntity i = some e ∧ e.isActive = true ∧ e.hasComponent t = true

/-! ## Basic lemmas about the loop ranges and the grid -/

theorem mem_intRange {a b x : Int} : x ∈ intRange a b ↔ a ≤ x ∧ x < b := by
  simp only [intRange, List.mem_map, List.mem_range]
  constructor
  · rintro ⟨i, hi, rfl⟩
    omega
  · intro h
    exact ⟨(x - a).toNat, by omega, by omega⟩

theorem mem_rectPositions {q pos : Position} {s : Size} :
    q ∈ WorldGrid.rectPositions pos s ↔
      pos.x ≤ q.x ∧ q.x < pos.x + s.width ∧ pos.y ≤ q.y ∧ q.y < pos.y + s.height := by
  simp only [WorldGrid.rectPositions, List.mem_flatMap, List.mem_map, mem_intRange]
  constructor
  · rintro ⟨y, ⟨hy1, hy2⟩, x, ⟨hx1, hx2⟩, rfl⟩
    exact ⟨hx1, hx2, hy1, hy2⟩
  · rintro ⟨hx1, hx2, hy1, hy2⟩
    exact ⟨q.y, ⟨hy1, hy2⟩, q.x, ⟨hx1, hx2⟩, rfl⟩

theorem rectPositions_eq_nil {pos : Position} {s : Size}
    (h : s.width ≤ 0 ∨ s.height ≤ 0) : WorldGrid.rectPositions pos s = [] := by
  refine List.eq_nil_iff_forall_not_mem.mpr (fun q hq => ?_)
  rw [mem_rectPositions] at hq
  omega

namespace WorldGrid

theorem isValidGridPosition_iff {g : WorldGrid} {p : Position} :
    g.isValidGridPosition p = true ↔
      0 ≤ p.x ∧ p.x < g.width ∧ 0 ≤ p.y ∧ p.y < g.height := by
  simp only [isValidGridPosition, isPositionValid, Bool.and_eq_true, decide_eq_true_eq]
  tauto

theorem isBuildable_iff {g : WorldGrid} {p : Position} :
    g.isBuildable p = true ↔
      ∃ t, g.getTile p = some t ∧ t.buildable = true ∧ t.occupiedBy = none := by
  cases h : g.getTile p with
  | none => simp [isBuildable, h]
  | some t =>
    simp only [isBuildable, h, Bool.and_eq_true, beq_iff_eq, Option.some.injEq]
    constructor
    · rintro ⟨hb, ho⟩
      exact ⟨t, rfl, hb, ho⟩
    · rintro ⟨t', rfl, hb, ho⟩
      exact ⟨hb, ho⟩

end WorldGrid

namespace WorldGrid

theorem getTile_make {w h : Int} {p : Position} (hx1 : 0 ≤ p.x) (hx2 : p.x < w)
    (hy1 : 0 ≤ p.y) (hy2 : p.y < h) :
    (WorldGrid.make w h).getTile p = some WorldGrid.defaultTile := by
  have hv : (make w h).isValidGridPosition p = true :=
    isValidGridPosition_iff.mpr ⟨hx1, hx2, hy1, hy2⟩
  have hyn : p.y.toNat < h.toNat := by omega
  have hxn : p.x.toNat < w.toNat := by omega
  unfold getTile
  rw [hv]
  simp only [if_true, make, initializeGrid]
  rw [List.get?_map, List.get?_range hyn]
  simp only [Option.map_some', Option.some_bind]
  rw [List.get?_map, List.get?_range hxn]
  rfl

end WorldGrid

/-! ## C8: grid serialization round-trip -/

/-- C8: for every grid `g`, `deserialize (serialize g)` has the same
dimensions as `g` and its tile at every position equals the corresponding
tile of `g` (equality of `TileData` is field-by-field equality of `type`,
`occupiedBy`, `walkable` and `buildable`); `g` is arbitrary, so grids with
mixed tile types, occupants and flags are covered. -/
theorem deserialize_serialize_roundtrip (g : WorldGrid) :
    (WorldGrid.deserialize (WorldGrid.serialize g)).width = g.width ∧
    (WorldGrid.deserialize (WorldGrid.serialize g)).height = g.height ∧
    ∀ p : Position,
      (WorldGrid.deserialize (WorldGrid.serialize g)).getTile p = g.getTile p :=
  ⟨rfl, rfl, fun _ => rfl⟩

/-! ## C9: zero / negative-sized rectangles succeed vacuously -/

/-- C9: for every grid, every position (in or out of bounds) and every size
with non-positive width or height, `isAreaAvailable` returns `true` and
`occupyArea` returns `true` while leaving the grid unchanged. -/
theorem emptyRect_available_and_occupy_noop (g : WorldGrid) (p : Position) (s : Size)
    (eid : EntityId) (h : s.width ≤ 0 ∨ s.height ≤ 0) :
    g.isAreaAvailable p s = true ∧ g.occupyArea p s eid = (true, g) := by
  have hnil := @rectPositions_eq_nil p s h
  constructor
  · simp [WorldGrid.isAreaAvailable, hnil]
  · simp [WorldGrid.occupyArea, WorldGrid.isAreaAvailable, hnil]

/-- Witness for C9 at a concrete out-of-bounds position and zero width. -/
theorem emptyRect_available_and_occupy_noop_witness :
    (WorldGrid.make 2 2).isAreaAvailable ⟨-5, 3⟩ ⟨0, 4⟩ = true ∧
    (WorldGrid.make 2 2).occupyArea ⟨-5, 3⟩ ⟨0, 4⟩ "e1" = (true, WorldGrid.make 2 2) :=
  emptyRect_available_and_occupy_noop _ _ _ _ (Or.inl (by decide))

/-! ## C10: `deserialize` installs mismatched tile arrays unchecked -/

/-- A serialized grid whose single row is shorter than the declared width. -/
def raggedData : WorldGrid.Serialized :=
  { width := 2, height := 1, tiles := [[WorldGrid.defaultTile]] }

/-- C10: `deserialize` installs the supplied tiles array without checking it
against the declared dimensions, and on `raggedData` (one row of length 1
under declared width 2) the resulting grid's tile read at the in-bounds
position `(1,0)` runs past the end of the row and yields JS `undefined`,
distinct from the `null` used for the out-of-bounds position `(2,0)`. -/
theorem deserialize_unchecked_getTile_undef :
    (WorldGrid.deserialize raggedData).tiles = raggedData.tiles ∧
    (WorldGrid.deserialize raggedData).isValidGridPosition ⟨1, 0⟩ = true ∧
    WorldGrid.getTileJs (WorldGrid.deserialize raggedData) ⟨1, 0⟩ = .undef ∧
    WorldGrid.getTileJs (WorldGrid.deserialize raggedData) ⟨2, 0⟩ = .jsNull := by
  decide

/-! ## Lemmas about `setOccupant` and the occupation fold -/

/-! ## Lemmas about `setOccupant` and the occupation fold -/

theorem get?_set_self {α : Type} {l : List α} {n : Nat} {b : α} (a : α)
    (h : l.get? n = some b) : (l.set n a).get? n = some a := by
  induction l generalizing n with
  | nil => simp at h
  | cons x xs ih =>
    cases n with
    | zero => rfl
    | succ m => exact ih (by simpa using h)

theorem get?_set_ne {α : Type} {l : List α} {n m : Nat} (a : α) (h : n ≠ m) :
    (l.set n a).get? m = l.get? m := by
  induction l generalizing n m with
  | nil => rfl
  | cons x xs ih =>
    cases n with
    | zero =>
      cases m with
      | zero => exact absurd rfl h
      | succ k => rfl
    | succ n' =>
      cases m with
      | zero => rfl
      | succ k => exact ih (by omega)

namespace WorldGrid

theorem isValidGridPosition_setTiles (g : WorldGrid) (tiles' : List (List TileData))
    (p : Position) :
    ({ g with tiles := tiles' } : WorldGrid).isValidGridPosition p = g.isValidGridPosition p :=
  rfl

theorem setOccupant_of_found {g : WorldGrid} {p : Position} {row : List TileData}
    {t : TileData} {eid : Option EntityId} (hv : g.isValidGridPosition p = true)
    (hrow : g.tiles.get? p.y.toNat = some row) (htile : row.get? p.x.toNat = some t) :
    g.setOccupant p eid =
      { g with tiles :=
          (g.tiles.set p.y.toNat (row.set p.x.toNat { t with occupiedBy := eid })) } := by
  unfold setOccupant
  rw [hv]
  simp only [if_true, hrow, htile]

theorem setOccupant_of_invalid {g : WorldGrid} {p : Position} {eid : Option EntityId}
    (hv : g.isValidGridPosition p = false) : g.setOccupant p eid = g := by
  unfold setOccupant
  rw [hv]
  simp

theorem getTile_setOccupant_self {g : WorldGrid} {p : Position} {t : TileData}
    {eid : Option EntityId} (h : g.getTile p = some t) :
    (g.setOccupant p eid).getTile p = some { t with occupiedBy := eid } := by
  have hv : g.isValidGridPosition p = true := by
    by_contra hv
    rw [Bool.not_eq_true] at hv
    unfold getTile at h
    rw [hv] at h
    simp at h
  unfold getTile at h
  rw [hv] at h
  simp only [if_true] at h
  obtain ⟨row, hrow, htile⟩ :
      ∃ row, g.tiles.get? p.y.toNat = some row ∧ row.get? p.x.toNat = some t := by
    cases hr : g.tiles.get? p.y.toNat with
    | none => rw [hr] at h; simp at h
    | some row => rw [hr] at h; simp only [Option.some_bind] at h; exact ⟨row, rfl, h⟩
  rw [setOccupant_of_found hv hrow htile]
  unfold getTile
  rw [isValidGridPosition_setTiles, hv]
  simp only [if_true]
  rw [get?_set_self _ hrow]
  simp only [Option.some_bind]
  exact get?_set_self _ htile

theorem getTile_setOccupant_ne {g : WorldGrid} {p q : Position} {eid : Option EntityId}
    (hne : q ≠ p) : (g.setOccupant p eid).getTile q = g.getTile q := by
  by_cases hv : g.isValidGridPosition p = true
  case neg =>
    rw [Bool.not_eq_true] at hv
    rw [setOccupant_of_invalid hv]
  case pos =>
  cases hrow : g.tiles.get? p.y.toNat with
  | none =>
    have : g.setOccupant p eid = g := by
      unfold setOccupant
      rw [hv]
      simp only [if_true, hrow]
    rw [this]
  | some row =>
    cases htile : row.get? p.x.toNat with
    | none =>
      have : g.setOccupant p eid = g := by
        unfold setOccupant
        rw [hv]
        simp only [if_true, hrow, htile]
      rw [this]
    | some t =>
      rw [setOccupant_of_found hv hrow htile]
      unfold getTile
      rw [isValidGridPosition_setTiles]
      by_cases hvq : g.isValidGridPosition q = true
      · rw [hvq]
        simp only [if_true]
        by_cases hy : q.y.toNat = p.y.toNat
        · have hbp := isValidGridPosition_iff.mp hv
          have hbq := isValidGridPosition_iff.mp hvq
          have hyy : q.y = p.y := by omega
          have hx : q.x ≠ p.x := by
            intro hxx
            exact hne (by cases q; cases p; simp_all)
          have hxn : q.x.toNat ≠ p.x.toNat := by omega
          rw [hy, get?_set_self _ hrow, hrow]
          simp only [Option.some_bind]
          exact get?_set_ne _ (Ne.symm hxn)
        · rw [get?_set_ne _ (Ne.symm hy)]
      · rw [Bool.not_eq_true] at hvq
        rw [hvq]
        simp

theorem getTile_foldSet_not_mem {ps : List Position} {g : WorldGrid}
    {eid : Option EntityId} {q : Position} (h : q ∉ ps) :
    (ps.foldl (fun g' p => g'.setOccupant p eid) g).getTile q = g.getTile q := by
  induction ps generalizing g with
  | nil => rfl
  | cons p ps ih =>
    simp only [List.foldl_cons]
    rw [ih (fun hq => h (List.mem_cons_of_mem _ hq))]
    exact getTile_setOccupant_ne (fun hqp => h (hqp ▸ List.mem_cons_self _ _))

theorem getTile_foldSet_occupant {ps : List Position} {g : WorldGrid} {eid : EntityId}
    {q : Position} {t : TileData} (hq : q ∈ ps) (ht : g.getTile q = some t) :
    ∃ t', (ps.foldl (fun g' p => g'.setOccupant p (some eid)) g).getTile q = some t' ∧
      t'.occupiedBy = some eid := by
  induction ps generalizing g t with
  | nil => cases hq
  | cons p ps ih =>
    simp only [List.foldl_cons]
    by_cases hqp : q = p
    · subst hqp
      have h1 : (g.setOccupant q (some eid)).getTile q =
          some { t with occupiedBy := some eid } := getTile_setOccupant_self ht
      by_cases hmem : q ∈ ps
      · exact ih hmem h1
      · rw [getTile_foldSet_not_mem hmem, h1]
        exact ⟨_, rfl, rfl⟩
    · have h1 : (g.setOccupant p (some eid)).getTile q = some t := by
        rw [getTile_setOccupant_ne hqp]; exact ht
      exact ih ((List.mem_cons.mp hq).resolve_left hqp) h1

/-- `isAreaAvailable` unfolded to tile-level conditions. -/
theorem isAreaAvailable_iff {g : WorldGrid} {pos : Position} {s : Size} :
    g.isAreaAvailable pos s = true ↔
      ∀ q ∈ rectPositions pos s,
        g.isValidGridPosition q = true ∧
        ∃ t, g.getTile q = some t ∧ t.buildable = true ∧ t.occupiedBy = none := by
  unfold isAreaAvailable
  rw [List.all_eq_true]
  constructor
  · intro hall q hq
    have h := hall q hq
    rw [Bool.and_eq_true] at h
    exact ⟨h.1, isBuildable_iff.mp h.2⟩
  · intro hall q hq
    rw [Bool.and_eq_true]
    obtain ⟨h1, h2⟩ := hall q hq
    exact ⟨h1, isBuildable_iff.mpr h2⟩

end WorldGrid

/-! ## C3: `isPlacementValid` characterization -/

/-- C3: `isPlacementValid grid pos size` is `true` exactly when the rectangle
lies entirely within the grid bounds (the `isAreaWithinBounds` arithmetic of
the spec) and every tile in it is buildable and unoccupied. -/
theorem isPlacementValid_iff (g : WorldGrid) (pos : Position) (s : Size) :
    isPlacementValid g pos s = true ↔
      (isAreaWithinBounds pos s g.width g.height = true ∧
       ∀ q ∈ WorldGrid.rectPositions pos s,
         ∃ t, g.getTile q = some t ∧ t.buildable = true ∧ t.occupiedBy = none) := by
  constructor
  · intro h
    by_cases hb : isAreaWithinBounds pos s g.width g.height = true
    · have havail : g.isAreaAvailable pos s = true := by
        unfold isPlacementValid at h
        simpa [WorldGrid.getDimensions, hb] using h
      exact ⟨hb, fun q hq => (WorldGrid.isAreaAvailable_iff.mp havail q hq).2⟩
    · exfalso
      rw [Bool.not_eq_true] at hb
      unfold isPlacementValid at h
      simp [WorldGrid.getDimensions, hb] at h
  · rintro ⟨hb, htiles⟩
    have havail : g.isAreaAvailable pos s = true := by
      rw [WorldGrid.isAreaAvailable_iff]
      intro q hq
      refine ⟨?_, htiles q hq⟩
      rw [WorldGrid.isValidGridPosition_iff]
      rw [mem_rectPositions] at hq
      unfold isAreaWithinBounds at hb
      simp only [Bool.and_eq_true, decide_eq_true_eq] at hb
      omega
    unfold isPlacementValid
    simp [WorldGrid.getDimensions, hb, havail]

/-! ## C1: `occupyArea` is atomic -/

/-- The spec-level trigger for `occupyArea`: every tile of the target
rectangle is in bounds, buildable and unoccupied. Its negation is "some tile
of the rectangle is out of bounds, not buildable or already occupied". -/
def AreaFullyAvailable (g : WorldGrid) (pos : Position) (s : Size) : Prop :=
  ∀ q ∈ WorldGrid.rectPositions pos s,
    g.isValidGridPosition q = true ∧
    ∃ t, g.getTile q = some t ∧ t.buildable = true ∧ t.occupiedBy = none

/-- C1: `occupyArea` is atomic. If any tile of the target rectangle is out of
bounds, not buildable or already occupied, it returns `false` and the grid —
hence every tile's occupant — is unchanged; if the whole rectangle is
available, it returns `true` and every tile of the rectangle ends with
`occupiedBy` equal to the given entity id. -/
theorem occupyArea_atomic (g : WorldGrid) (pos : Position) (s : Size) (eid : EntityId) :
    (¬ AreaFullyAvailable g pos s → g.occupyArea pos s eid = (false, g)) ∧
    (AreaFullyAvailable g pos s →
      (g.occupyArea pos s eid).1 = true ∧
      ∀ q ∈ WorldGrid.rectPositions pos s,
        ∃ t, (g.occupyArea pos s eid).2.getTile q = some t ∧
          t.occupiedBy = some eid) := by
  constructor
  · intro hNA
    have hfalse : g.isAreaAvailable pos s = false := by
      rw [← Bool.not_eq_true]
      intro hA
      exact hNA (WorldGrid.isAreaAvailable_iff.mp hA)
    unfold WorldGrid.occupyArea
    simp [hfalse]
  · intro hA
    have hAa : g.isAreaAvailable pos s = true := WorldGrid.isAreaAvailable_iff.mpr hA
    unfold WorldGrid.occupyArea
    rw [hAa]
    simp only [if_true]
    refine ⟨trivial, fun q hq => ?_⟩
    obtain ⟨-, t, ht, -, -⟩ := hA q hq
    exact WorldGrid.getTile_foldSet_occupant hq ht

/-- Witness for C1 on a concrete fresh 3×3 grid and a fully available 2×2
rectangle. -/
theorem occupyArea_atomic_witness :
    ((WorldGrid.make 3 3).occupyArea ⟨0, 0⟩ ⟨2, 2⟩ "e1").1 = true ∧
    ∀ q ∈ WorldGrid.rectPositions ⟨0, 0⟩ ⟨2, 2⟩,
      ∃ t, ((WorldGrid.make 3 3).occupyArea ⟨0, 0⟩ ⟨2, 2⟩ "e1").2.getTile q = some t ∧
        t.occupiedBy = some "e1" :=
  (occupyArea_atomic (WorldGrid.make 3 3) ⟨0, 0⟩ ⟨2, 2⟩ "e1").2 (by
    intro q hq
    rw [mem_rectPositions] at hq
    simp only at hq
    refine ⟨WorldGrid.isValidGridPosition_iff.mpr ?_,
      WorldGrid.defaultTile,
      WorldGrid.getTile_make (by omega) (by omega) (by omega) (by omega), rfl, rfl⟩
    simp only [WorldGrid.make]
    omega)

/-! ## C7: expanding-ring placement search -/

theorem findValidGo_nil_acc (g : WorldGrid) (tp : Position) (s : Size) (ds : List Int) :
    findValidGo g tp s ds [] =
      match ds.find? (fun d =>
          !((ringCandidates tp d).filter (fun q => isPlacementValid g q s)).isEmpty) with
      | some d => (ringCandidates tp d).filter (fun q => isPlacementValid g q s)
      | none => [] := by
  induction ds with
  | nil => rfl
  | cons d ds ih =>
    rw [List.find?_cons]
    by_cases hE : ((ringCandidates tp d).filter (fun q => isPlacementValid g q s)) = []
    · have hpred :
          (!((ringCandidates tp d).filter (fun q => isPlacementValid g q s)).isEmpty) = false := by
        rw [hE]; rfl
      simp only [findValidGo, List.nil_append, hE, hpred]
      simpa using ih
    · have hpred :
          (!((ringCandidates tp d).filter (fun q => isPlacementValid g q s)).isEmpty) = true := by
        simp [List.isEmpty_iff, hE]
      have hlen : 0 < ((ringCandidates tp d).filter (fun q => isPlacementValid g q s)).length :=
        List.length_pos.mpr hE
      simp only [findValidGo, List.nil_append, hpred]
      simp [hlen]

theorem mem_ringCandidates {tp : Position} {d : Int} {q : Position} :
    q ∈ ringCandidates tp d ↔ max |q.x - tp.x| |q.y - tp.y| = d := by
  simp only [ringCandidates, List.mem_flatMap, List.mem_map, List.mem_filter, mem_intRange,
    Bool.or_eq_true, beq_iff_eq]
  constructor
  · rintro ⟨dx, hdx, dy, ⟨hdy, hperim⟩, rfl⟩
    simp only
    rw [show tp.x + dx - tp.x = dx from by ring, show tp.y + dy - tp.y = dy from by ring]
    rcases hperim with h | h
    · rw [h]
      exact max_eq_left (abs_le.mpr (by omega))
    · rw [h]
      exact max_eq_right (abs_le.mpr (by omega))
  · intro hmax
    have hx : |q.x - tp.x| ≤ d := by
      rw [← hmax]; exact le_max_left _ _
    have hy : |q.y - tp.y| ≤ d := by
      rw [← hmax]; exact le_max_right _ _
    have hx' := abs_le.mp hx
    have hy' := abs_le.mp hy
    refine ⟨q.x - tp.x, ⟨by omega, by omega⟩, q.y - tp.y, ⟨⟨by omega, by omega⟩, ?_⟩, ?_⟩
    · rcases max_choice |q.x - tp.x| |q.y - tp.y| with h | h
      · left; rw [← hmax, h]
      · right; rw [← hmax, h]
    · cases q
      simp only [Position.mk.injEq]
      constructor <;> ring

/-- C7: `findValidPlacementPositions` is the expanding-ring search: its result
is the `isPlacementValid`-filtered candidate list of the first distance
`d ∈ 1..maxDistance` whose ring yields a hit, and the empty list when no ring
up to `maxDistance` yields one; and the candidate cells examined at distance
`d` are exactly the cells of the Chebyshev ring of radius `d` around the
target (those with `max |dx| |dy| = d`). -/
theorem findValidPlacementPositions_spec (g : WorldGrid) (tp : Position) (s : Size)
    (maxDistance : Int) :
    (findValidPlacementPositions g tp s maxDistance =
      match (intRange 1 (maxDistance + 1)).find? (fun d =>
          !((ringCandidates tp d).filter (fun q => isPlacementValid g q s)).isEmpty) with
      | some d => (ringCandidates tp d).filter (fun q => isPlacementValid g q s)
      | none => []) ∧
    ∀ (d : Int) (q : Position),
      q ∈ ringCandidates tp d ↔ max |q.x - tp.x| |q.y - tp.y| = d :=
  ⟨findValidGo_nil_acc g tp s (intRange 1 (maxDistance + 1)),
   fun _ _ => mem_ringCandidates⟩

/-! ## Lemmas about the JS `Map` / `Set` models -/

theorem find?_replace {α : Type} (m : List (String × α)) (k k' : String) (v : α) :
    (m.map (fun p => if p.1 == k then (k, v) else p)).find? (fun p => p.1 == k') =
      if k' = k then (m.find? (fun p => p.1 == k)).map (fun _ => (k, v))
      else m.find? (fun p => p.1 == k') := by
  induction m with
  | nil => by_cases h : k' = k <;> simp [h]
  | cons a rest ih =>
    simp only [List.map_cons]
    cases hb : (a.1 == k) with
    | true =>
      have ha : a.1 = k := by simpa using hb
      rw [if_pos rfl]
      by_cases h' : k' = k
      · subst h'
        rw [if_pos rfl]
        rw [List.find?_cons, List.find?_cons]
        simp only [hb, Option.map_some']
        simp only [show ((k', v).1 == k') = true from by simp]
      · rw [if_neg h'] at ih ⊢
        rw [List.find?_cons, List.find?_cons]
        have hkv : ((k, v).1 == k') = false := by simpa using Ne.symm h'
        have h2 : (a.1 == k') = false := by rw [ha]; simpa using Ne.symm h'
        simp only [hkv, h2]
        exact ih
    | false =>
      have ha : ¬ a.1 = k := by simpa using hb
      rw [if_neg (by simp : ¬ false = true)]
      by_cases h' : k' = k
      · subst h'
        rw [if_pos rfl] at ih ⊢
        rw [List.find?_cons, List.find?_cons]
        simp only [hb]
        exact ih
      · rw [if_neg h'] at ih ⊢
        rw [List.find?_cons, List.find?_cons]
        cases hb' : (a.1 == k') with
        | true => simp only
        | false => simp only; exact ih

theorem mapGet_mapSet {α : Type} (m : List (String × α)) (k k' : String) (v : α) :
    mapGet (mapSet m k v) k' = if k' = k then some v else mapGet m k' := by
  unfold mapSet mapGet
  by_cases hk : m.any (fun p => p.1 == k) = true
  · rw [if_pos hk, find?_replace]
    by_cases h' : k' = k
    · subst h'
      obtain ⟨p, hp, hpk⟩ := List.any_eq_true.mp hk
      cases hf : m.find? (fun p => p.1 == k') with
      | none => exact absurd (List.find?_eq_none.mp hf p hp) (by simp [hpk])
      | some q => simp [hf]
    · simp [h']
  · rw [if_neg hk, List.find?_append]
    by_cases h' : k' = k
    · subst h'
      have hnone : m.find? (fun p => p.1 == k') = none := by
        rw [List.find?_eq_none]
        intro p hp hpk
        exact hk (List.any_eq_true.mpr ⟨p, hp, hpk⟩)
      simp [hnone]
    · have h1 : ((k, v).1 == k') = false := by simpa using Ne.symm h'
      cases hfm : m.find? (fun p => p.1 == k') with
      | some p => simp [hfm, h']
      | none => simp [hfm, h1, h']

theorem mapGet_mapDelete {α : Type} (m : List (String × α)) (k k' : String) :
    mapGet (mapDelete m k) k' = if k' = k then none else mapGet m k' := by
  unfold mapDelete mapGet
  induction m with
  | nil => by_cases h : k' = k <;> simp [h]
  | cons a rest ih =>
    simp only [List.filter_cons]
    cases hb : (a.1 != k) with
    | false =>
      have ha : a.1 = k := by simpa using hb
      rw [if_neg (by simp : ¬ false = true)]
      by_cases h' : k' = k
      · subst h'
        rw [if_pos rfl] at ih ⊢
        exact ih
      · rw [if_neg h'] at ih ⊢
        rw [List.find?_cons]
        have h2 : (a.1 == k') = false := by rw [ha]; simpa using Ne.symm h'
        simp only [h2]
        exact ih
    | true =>
      have ha : ¬ a.1 = k := by simpa using hb
      rw [if_pos rfl]
      by_cases h' : k' = k
      · subst h'
        rw [if_pos rfl] at ih ⊢
        rw [List.find?_cons]
        have h2 : (a.1 == k') = false := by simpa using ha
        simp only [h2]
        exact ih
      · rw [if_neg h'] at ih ⊢
        rw [List.find?_cons, List.find?_cons]
        cases hb' : (a.1 == k') with
        | true => simp only
        | false => simp only; exact ih

theorem mem_setAdd {s : List EntityId} {x i : EntityId} :
    i ∈ setAdd s x ↔ i ∈ s ∨ i = x := by
  unfold setAdd
  by_cases h : s.contains x = true
  · rw [if_pos h]
    constructor
    · exact Or.inl
    · rintro (hi | rfl)
      · exact hi
      · simpa using h
  · rw [if_neg h]
    simp [List.mem_append]

theorem mem_setDelete {s : List EntityId} {x i : EntityId} :
    i ∈ setDelete s x ↔ i ∈ s ∧ i ≠ x := by
  simp [setDelete, List.mem_filter, bne_iff_ne]

/-! ## Structural lemmas about the entity store -/

theorem getEntity_setEntities (m : EntityManager) (ents : List (EntityId × Entity))
    (i : EntityId) :
    ({ m with entities := ents } : EntityManager).getEntity i = mapGet ents i :=
  rfl

theorem registryIds_setEntities (m : EntityManager) (ents : List (EntityId × Entity))
    (t : String) :
    ({ m with entities := ents } : EntityManager).registryIds t = m.registryIds t :=
  rfl

theorem getEntity_register (m : EntityManager) (id : EntityId) (ct : String) (i : EntityId) :
    (m.registerEntityComponent id ct).getEntity i = m.getEntity i :=
  rfl

theorem getEntity_unregister (m : EntityManager) (id : EntityId) (ct : String) (i : EntityId) :
    (m.unregisterEntityComponent id ct).getEntity i = m.getEntity i := by
  unfold EntityManager.unregisterEntityComponent
  cases mapGet m.componentRegistry ct with
  | none => rfl
  | some s =>
    dsimp only
    by_cases h : ((setDelete s id).length == 0) = true
    · rw [if_pos h]; rfl
    · rw [if_neg h]; rfl

theorem registryIds_register (m : EntityManager) (id : EntityId) (ct t : String) :
    (m.registerEntityComponent id ct).registryIds t =
      if t = ct then setAdd (m.registryIds ct) id else m.registryIds t := by
  unfold EntityManager.registerEntityComponent EntityManager.registryIds
  dsimp only
  rw [mapGet_mapSet]
  by_cases h : t = ct <;> simp [h]

theorem mem_registryIds_unregister (m : EntityManager) (id : EntityId) (ct t : String)
    (i : EntityId) :
    i ∈ (m.unregisterEntityComponent id ct).registryIds t ↔
      i ∈ m.registryIds t ∧ ¬(t = ct ∧ i = id) := by
  unfold EntityManager.unregisterEntityComponent
  cases hr : mapGet m.componentRegistry ct with
  | none =>
    by_cases h : t = ct
    · subst h
      unfold EntityManager.registryIds
      rw [hr]
      simp
    · simp [h]
  | some s =>
    dsimp only
    by_cases hnil : setDelete s id = []
    · have hc : ((setDelete s id).length == 0) = true := by simp [hnil]
      rw [if_pos hc]
      unfold EntityManager.registryIds
      dsimp only
      rw [mapGet_mapDelete]
      by_cases h : t = ct
      · subst h
        rw [if_pos rfl, hr]
        simp only [Option.getD_none, Option.getD_some]
        constructor
        · intro hmem; simp at hmem
        · rintro ⟨hi, hni⟩
          have hmem2 : i ∈ setDelete s id := mem_setDelete.mpr ⟨hi, by tauto⟩
          rw [hnil] at hmem2
          simp at hmem2
      · rw [if_neg h]
        simp [EntityManager.registryIds, h]
    · have hc : ((setDelete s id).length == 0) = false := by
        simp [List.length_eq_zero, hnil]
      rw [if_neg (by simp [hc] : ¬ ((setDelete s id).length == 0) = true)]
      unfold EntityManager.registryIds
      dsimp only
      rw [mapGet_mapSet]
      by_cases h : t = ct
      · subst h
        rw [if_pos rfl, hr]
        simp only [Option.getD_some]
        rw [mem_setDelete]
        tauto
      · rw [if_neg h]
        simp [EntityManager.registryIds, h]

theorem hasComponent_addComp (e : Entity) (c : Component) (t : String) :
    ({ e with components := mapSet e.components c.type c } : Entity).hasComponent t =
      if t = c.type then true else e.hasComponent t := by
  unfold Entity.hasComponent
  dsimp only
  rw [mapGet_mapSet]
  by_cases h : t = c.type <;> simp [h]

theorem hasComponent_delComp (e : Entity) (ct t : String) :
    ({ e with components := mapDelete e.components ct } : Entity).hasComponent t =
      if t = ct then false else e.hasComponent t := by
  unfold Entity.hasComponent
  dsimp only
  rw [mapGet_mapDelete]
  by_cases h : t = ct <;> simp [h]

theorem mem_getComponentTypes {e : Entity} {t : String} :
    t ∈ e.getComponentTypes ↔ e.hasComponent t = true := by
  unfold Entity.getComponentTypes Entity.hasComponent mapGet
  constructor
  · intro hmem
    obtain ⟨p, hp, rfl⟩ := List.mem_map.mp hmem
    cases hf : e.components.find? (fun q => q.1 == p.1) with
    | none => exact absurd (List.find?_eq_none.mp hf p hp) (by simp)
    | some q => simp [hf]
  · intro h
    cases hf : e.components.find? (fun q => q.1 == t) with
    | none => rw [hf] at h; simp at h
    | some q =>
      have hq := List.find?_some hf
      exact List.mem_map.mpr ⟨q, List.mem_of_find?_eq_some hf, by simpa using hq⟩

/-! ## Preservation of the index invariant -/

theorem registryAccurate_create {m : EntityManager} {id : EntityId}
    (hRA : RegistryAccurate m) (hfresh : m.getEntity id = none) :
    RegistryAccurate (m.createEntity id).2 := by
  intro t i
  unfold EntityManager.createEntity
  dsimp only
  rw [registryIds_setEntities, getEntity_setEntities, mapGet_mapSet]
  simp only [Entity.make]
  by_cases hi : i = id
  · subst hi
    rw [if_pos rfl]
    constructor
    · intro hmem
      obtain ⟨e, he, _, _⟩ := (hRA t i).mp hmem
      rw [show m.getEntity i = mapGet m.entities i from rfl] at he
      rw [show m.getEntity i = mapGet m.entities i from rfl] at hfresh
      rw [hfresh] at he
      cases he
    · rintro ⟨e, he, _, hcomp⟩
      cases he
      simp [Entity.hasComponent, Entity.make, mapGet] at hcomp
  · rw [if_neg hi]
    exact hRA t i

theorem registryAccurate_addComp {m : EntityManager} {id : EntityId} {c : Component}
    (hRA : RegistryAccurate m) :
    RegistryAccurate (m.addComponentToEntity id c).2 := by
  unfold EntityManager.addComponentToEntity
  cases hget : mapGet m.entities id with
  | none => simpa only [hget] using hRA
  | some e =>
    cases hact : e.isActive with
    | false =>
      have herr : e.addComponent c =
          .error ("Cannot add component to inactive entity " ++ e.id) := by
        unfold Entity.addComponent
        rw [hact]
        rfl
      simpa only [hget, herr] using hRA
    | true =>
      have hok : e.addComponent c =
          .ok { e with components := mapSet e.components c.type c } := by
        unfold Entity.addComponent
        rw [hact]
        rfl
      simp only [hget, hok]
      intro t i
      rw [registryIds_register, registryIds_setEntities, getEntity_register,
        getEntity_setEntities, mapGet_mapSet]
      by_cases ht : t = c.type
      · subst ht
        rw [if_pos rfl]
        rw [mem_setAdd]
        by_cases hi : i = id
        · subst hi
          rw [if_pos rfl]
          constructor
          · intro _
            refine ⟨_, rfl, hact, ?_⟩
            rw [hasComponent_addComp]
            rw [if_pos rfl]
          · intro _
            right
            rfl
        · rw [if_neg hi]
          constructor
          · rintro (hmem | rfl)
            · exact (hRA c.type i).mp hmem
            · exact absurd rfl hi
          · intro hex
            left
            exact (hRA c.type i).mpr hex
      · rw [if_neg ht]
        by_cases hi : i = id
        · subst hi
          rw [if_pos rfl]
          constructor
          · intro hmem
            obtain ⟨e', he', hact', hcomp'⟩ := (hRA t i).mp hmem
            rw [show m.getEntity i = mapGet m.entities i from rfl, hget] at he'
            cases he'
            refine ⟨_, rfl, hact, ?_⟩
            rw [hasComponent_addComp, if_neg ht]
            exact hcomp'
          · rintro ⟨e', he', hact', hcomp'⟩
            cases he'
            rw [hasComponent_addComp, if_neg ht] at hcomp'
            exact (hRA t i).mpr ⟨e, show m.getEntity i = some e from hget, hact, hcomp'⟩
        · rw [if_neg hi]
          exact hRA t i

theorem entities_unregister (m : EntityManager) (id : EntityId) (ct : String) :
    (m.unregisterEntityComponent id ct).entities = m.entities := by
  unfold EntityManager.unregisterEntityComponent
  cases mapGet m.componentRegistry ct with
  | none => rfl
  | some s =>
    dsimp only
    by_cases h : ((setDelete s id).length == 0) = true
    · rw [if_pos h]
    · rw [if_neg h]

theorem entities_foldUnreg (ts : List String) (m : EntityManager) (id : EntityId) :
    (ts.foldl (fun acc t' => acc.unregisterEntityComponent id t') m).entities = m.entities := by
  induction ts generalizing m with
  | nil => rfl
  | cons t' ts ih =>
    rw [List.foldl_cons, ih, entities_unregister]

theorem mem_registryIds_foldUnreg (ts : List String) (m : EntityManager) (id : EntityId)
    (t : String) (i : EntityId) :
    i ∈ (ts.foldl (fun acc t' => acc.unregisterEntityComponent id t') m).registryIds t ↔
      i ∈ m.registryIds t ∧ ¬(t ∈ ts ∧ i = id) := by
  induction ts generalizing m with
  | nil => simp
  | cons t' ts ih =>
    rw [List.foldl_cons, ih, mem_registryIds_unregister]
    simp only [List.mem_cons]
    tauto

theorem registryAccurate_removeComp {m : EntityManager} {id : EntityId} {ct : String}
    (hRA : RegistryAccurate m) :
    RegistryAccurate (m.removeComponentFromEntity id ct).2 := by
  unfold EntityManager.removeComponentFromEntity
  cases hget : mapGet m.entities id with
  | none => simpa only [hget] using hRA
  | some e =>
    cases hact : e.isActive with
    | false =>
      have hr : e.removeComponent ct = (false, e) := by
        unfold Entity.removeComponent
        rw [hact]
        rfl
      simp only [hget, hr]
      rw [if_neg (by simp : ¬ false = true)]
      dsimp only
      intro t i
      rw [registryIds_setEntities, getEntity_setEntities, mapGet_mapSet]
      by_cases hi : i = id
      · subst hi
        rw [if_pos rfl]
        have h0 := hRA t i
        rw [show m.getEntity i = mapGet m.entities i from rfl, hget] at h0
        exact h0
      · rw [if_neg hi]
        exact hRA t i
    | true =>
      have hr : e.removeComponent ct =
          (e.hasComponent ct, { e with components := mapDelete e.components ct }) := by
        unfold Entity.removeComponent
        rw [hact]
        rfl
      simp only [hget, hr]
      cases hc : e.hasComponent ct with
      | true =>
        simp only [hc]
        rw [if_pos trivial]
        dsimp only
        intro t i
        rw [mem_registryIds_unregister, registryIds_setEntities, getEntity_unregister,
          getEntity_setEntities, mapGet_mapSet]
        by_cases hi : i = id
        · subst hi
          rw [if_pos rfl]
          have h0 := hRA t i
          rw [show m.getEntity i = mapGet m.entities i from rfl, hget] at h0
          by_cases htc : t = ct
          · subst htc
            constructor
            · rintro ⟨-, hni⟩
              exact absurd ⟨rfl, rfl⟩ hni
            · rintro ⟨e'', he'', -, hcomp''⟩
              cases he''
              rw [hasComponent_delComp, if_pos rfl] at hcomp''
              cases hcomp''
          · constructor
            · rintro ⟨hmem, -⟩
              obtain ⟨e'', he'', -, hcomp''⟩ := h0.mp hmem
              cases he''
              refine ⟨_, rfl, hact, ?_⟩
              rw [hasComponent_delComp, if_neg htc]
              exact hcomp''
            · rintro ⟨e'', he'', -, hcomp''⟩
              cases he''
              rw [hasComponent_delComp, if_neg htc] at hcomp''
              refine ⟨h0.mpr ⟨e, rfl, hact, hcomp''⟩, ?_⟩
              rintro ⟨h1, -⟩
              exact htc h1
        · rw [if_neg hi]
          have h0 := hRA t i
          constructor
          · rintro ⟨hmem, -⟩
            exact h0.mp hmem
          · intro hex
            exact ⟨h0.mpr hex, fun hh => hi hh.2⟩
      | false =>
        rw [if_neg (by simp : ¬ false = true)]
        dsimp only
        intro t i
        rw [registryIds_setEntities, getEntity_setEntities, mapGet_mapSet]
        by_cases hi : i = id
        · subst hi
          rw [if_pos rfl]
          have h0 := hRA t i
          rw [show m.getEntity i = mapGet m.entities i from rfl, hget] at h0
          constructor
          · intro hmem
            obtain ⟨e'', he'', -, hcomp''⟩ := h0.mp hmem
            cases he''
            refine ⟨_, rfl, hact, ?_⟩
            rw [hasComponent_delComp]
            by_cases htc : t = ct
            · subst htc
              rw [hcomp''] at hc
              cases hc
            · rw [if_neg htc]
              exact hcomp''
          · rintro ⟨e'', he'', -, hcomp''⟩
            cases he''
            rw [hasComponent_delComp] at hcomp''
            by_cases htc : t = ct
            · rw [if_pos htc] at hcomp''
              cases hcomp''
            · rw [if_neg htc] at hcomp''
              exact h0.mpr ⟨e, rfl, hact, hcomp''⟩
        · rw [if_neg hi]
          exact hRA t i

theorem registryAccurate_removeEnt {m : EntityManager} {id : EntityId}
    (hRA : RegistryAccurate m) :
    RegistryAccurate (m.removeEntity id).2 := by
  unfold EntityManager.removeEntity
  cases hget : mapGet m.entities id with
  | none => simpa only [hget] using hRA
  | some e =>
    simp only [hget]
    intro t i
    rw [registryIds_setEntities, mem_registryIds_foldUnreg, getEntity_setEntities,
      mapGet_mapDelete, entities_foldUnreg]
    by_cases hi : i = id
    · subst hi
      rw [if_pos rfl]
      have h0 := hRA t i
      rw [show m.getEntity i = mapGet m.entities i from rfl, hget] at h0
      constructor
      · rintro ⟨hmem, hni⟩
        obtain ⟨e'', he'', -, hcomp''⟩ := h0.mp hmem
        cases he''
        exact absurd ⟨mem_getComponentTypes.mpr hcomp'', rfl⟩ hni
      · rintro ⟨e'', he'', -, -⟩
        cases he''
    · rw [if_neg hi]
      constructor
      · rintro ⟨hmem, -⟩
        exact (hRA t i).mp hmem
      · intro hex
        exact ⟨(hRA t i).mpr hex, fun hh => hi hh.2⟩

theorem registryAccurate_applyOp {m : EntityManager} {op : EOp}
    (hRA : RegistryAccurate m)
    (hfresh : (match op with
               | .create id => (m.getEntity id).isNone
               | _ => true) = true) :
    RegistryAccurate (applyOp m op) := by
  cases op with
  | create id =>
    exact registryAccurate_create hRA (Option.isNone_iff_eq_none.mp hfresh)
  | addComp id c => exact registryAccurate_addComp hRA
  | removeComp id t => exact registryAccurate_removeComp hRA
  | removeEnt id => exact registryAccurate_removeEnt hRA

theorem registryAccurate_runOps (ops : List EOp) :
    ∀ m : EntityManager, RegistryAccurate m → freshCreates m ops = true →
      RegistryAccurate (runOps m ops) := by
  induction ops with
  | nil => exact fun m h _ => h
  | cons op ops ih =>
    intro m hRA hf
    unfold freshCreates at hf
    rw [Bool.and_eq_true] at hf
    exact ih (applyOp m op) (registryAccurate_applyOp hRA hf.1) hf.2

theorem registryAccurate_empty : RegistryAccurate EntityManager.empty := by
  intro t i
  constructor
  · intro hmem
    simp [EntityManager.registryIds, EntityManager.empty, mapGet] at hmem
  · rintro ⟨e, he, -, -⟩
    simp [EntityManager.getEntity, EntityManager.empty, mapGet] at he

/-! ## C2: the component-registry index invariant -/

/-- The operation sequence refuting C2 as stated: a `createEntity` that
reuses the live id "e" silently replaces the stored entity but leaves the
registry entry for component type "a" behind. -/
def dupCreateOps : List EOp :=
  [.create "e", .addComp "e" ⟨"a", 1⟩, .create "e"]

/-- C2 counterexample: after `create "e"; addComponent "e" a; create "e"`,
the id "e" is still registered under type "a" although the stored entity
"e" is a fresh one holding no components, so the index invariant fails for
sequences that include a duplicate-id `createEntity`. -/
theorem registry_invariant_cex :
    "e" ∈ (runOps EntityManager.empty dupCreateOps).registryIds "a" ∧
    (runOps EntityManager.empty dupCreateOps).getEntity "e" = some (Entity.make "e") ∧
    ¬ RegistryAccurate (runOps EntityManager.empty dupCreateOps) := by
  refine ⟨by decide, by decide, fun h => ?_⟩
  obtain ⟨e, he, -, hcomp⟩ := (h "a" "e").mp (by decide)
  rw [show (runOps EntityManager.empty dupCreateOps).getEntity "e" =
      some (Entity.make "e") from by decide] at he
  cases he
  simp [Entity.hasComponent, Entity.make, mapGet] at hcomp

/-- C2 (amended): after any sequence of `createEntity` /
`addComponentToEntity` / `removeComponentFromEntity` / `removeEntity` calls
from the empty store in which every `createEntity` supplies an id not
already present at that moment, the registry under every type `T` holds
exactly the ids of active stored entities with a component of type `T`. -/
theorem registry_invariant_of_freshCreates (ops : List EOp)
    (h : freshCreates EntityManager.empty ops = true) :
    RegistryAccurate (runOps EntityManager.empty ops) :=
  registryAccurate_runOps ops EntityManager.empty registryAccurate_empty h

/-- Witness for the amended C2 on a concrete five-operation sequence
(including a re-create of a previously removed id). -/
theorem registry_invariant_of_freshCreates_witness :
    RegistryAccurate (runOps EntityManager.empty
      [.create "x", .addComp "x" ⟨"pos", 1⟩, .removeComp "x" "pos",
       .removeEnt "x", .create "x"]) :=
  registry_invariant_of_freshCreates _ (by decide)

/-! ## C5: duplicate-id `createEntity` -/

/-- A store whose entity "e" is live and holds a component of type "a". -/
def dupStore : EntityManager :=
  ((EntityManager.empty.createEntity "e").2.addComponentToEntity "e" ⟨"a", 7⟩).2

/-- C5 counterexample: with "e" already present (and holding a component),
`createEntity "e"` is not signaled as an error — it succeeds, returns a
fresh componentless entity, and silently replaces the stored one
(`createEntity` performs no duplicate check and has no failure channel). -/
theorem createEntity_duplicate_cex :
    (dupStore.getEntity "e").isSome = true ∧
    dupStore.getEntity "e" ≠ some (Entity.make "e") ∧
    (dupStore.createEntity "e").1 = Entity.make "e" ∧
    (dupStore.createEntity "e").2.getEntity "e" = some (Entity.make "e") := by
  decide

/-- C5 (amended): `createEntity id` always succeeds: it returns a fresh
active componentless entity and stores it under `id`, silently replacing any
previously stored entity with that id; other entries and the component
registry are untouched, and no `DuplicateId` error exists. -/
theorem createEntity_overwrites (m : EntityManager) (id id' : EntityId)
    (h : id' ≠ id) :
    (m.createEntity id).1 = Entity.make id ∧
    (m.createEntity id).2.getEntity id = some (Entity.make id) ∧
    (m.createEntity id).2.getEntity id' = m.getEntity id' ∧
    (m.createEntity id).2.componentRegistry = m.componentRegistry := by
  refine ⟨rfl, ?_, ?_, rfl⟩
  · unfold EntityManager.createEntity EntityManager.getEntity
    dsimp only
    rw [mapGet_mapSet]
    simp [Entity.make]
  · unfold EntityManager.createEntity EntityManager.getEntity
    dsimp only
    rw [mapGet_mapSet]
    simp [Entity.make, h]

/-- Witness for the amended C5 on a concrete store. -/
theorem createEntity_overwrites_witness :
    (EntityManager.empty.createEntity "a").1 = Entity.make "a" ∧
    (EntityManager.empty.createEntity "a").2.getEntity "a" = some (Entity.make "a") ∧
    (EntityManager.empty.createEntity "a").2.getEntity "b" = EntityManager.empty.getEntity "b" ∧
    (EntityManager.empty.createEntity "a").2.componentRegistry =
      EntityManager.empty.componentRegistry :=
  createEntity_overwrites EntityManager.empty "a" "b" (by decide)

/-! ## C6: mutations on a deactivated entity -/

/-- A deactivated entity holding a component of type "a". -/
def inactiveE : Entity :=
  { id := "e", components := [("a", ⟨"a", 1⟩)], isActive := false }

/-- A store containing the deactivated entity, with a matching registry. -/
def inactiveStore : EntityManager :=
  { entities := [("e", inactiveE)], componentRegistry := [("a", ["e"])] }

/-- C6 counterexample: not every component mutation on a deactivated entity
hard-fails. `Entity.removeComponent` returns the ordinary value `false`
(its return type has no failure channel — the source never throws there);
the store-level `addComponentToEntity` catches the entity-level throw and
returns `false` with the store unchanged; `removeComponentFromEntity`
likewise returns `false`. -/
theorem inactive_mutation_cex :
    Entity.removeComponent "a" inactiveE = (false, inactiveE) ∧
    inactiveStore.addComponentToEntity "e" ⟨"b", 2⟩ = (false, inactiveStore) ∧
    (inactiveStore.removeComponentFromEntity "e" "a").1 = false := by
  decide

/-- C6 (amended): on a deactivated entity, only `Entity.addComponent`
hard-fails (throws); `Entity.removeComponent` returns `false`, the
store-level `addComponentToEntity` converts the throw into a plain `false`
leaving the store unchanged, and `removeComponentFromEntity` returns
`false`. -/
theorem inactive_mutation_behavior (e : Entity) (c : Component) (t : String)
    (m : EntityManager) (id : EntityId) (hact : e.isActive = false)
    (hget : m.getEntity id = some e) :
    e.addComponent c = .error ("Cannot add component to inactive entity " ++ e.id) ∧
    e.removeComponent t = (false, e) ∧
    m.addComponentToEntity id c = (false, m) ∧
    (m.removeComponentFromEntity id t).1 = false := by
  have h1 : e.addComponent c =
      .error ("Cannot add component to inactive entity " ++ e.id) := by
    unfold Entity.addComponent
    rw [hact]
    rfl
  have h2 : e.removeComponent t = (false, e) := by
    unfold Entity.removeComponent
    rw [hact]
    rfl
  refine ⟨h1, h2, ?_, ?_⟩
  · unfold EntityManager.addComponentToEntity
    rw [show mapGet m.entities id = some e from hget]
    simp only [h1]
  · unfold EntityManager.removeComponentFromEntity
    rw [show mapGet m.entities id = some e from hget]
    simp only [h2]
    rw [if_neg (by simp : ¬ false = true)]

/-- Witness for the amended C6 on the concrete deactivated entity and store. -/
theorem inactive_mutation_behavior_witness :
    inactiveE.addComponent ⟨"b", 2⟩ =
      .error ("Cannot add component to inactive entity " ++ inactiveE.id) ∧
    inactiveE.removeComponent "a" = (false, inactiveE) ∧
    inactiveStore.addComponentToEntity "e" ⟨"b", 2⟩ = (false, inactiveStore) ∧
    (inactiveStore.removeComponentFromEntity "e" "a").1 = false :=
  inactive_mutation_behavior inactiveE ⟨"b", 2⟩ "a" inactiveStore "e"
    (by decide) (by decide)

/-! ## C4: Bresenham endpoint behavior -/

/-- C4 counterexample: the rasterized line is not symmetric. From `(0,0)` to
`(2,1)` the algorithm passes through `(1,0)`; from `(2,1)` to `(0,0)` it
passes through `(1,1)` instead, so the two lists do not contain the same set
of points. -/
theorem getLinePositions_symmetry_cex :
    getLinePositions ⟨0, 0⟩ ⟨2, 1⟩ = [⟨0, 0⟩, ⟨1, 0⟩, ⟨2, 1⟩] ∧
    getLinePositions ⟨2, 1⟩ ⟨0, 0⟩ = [⟨2, 1⟩, ⟨1, 1⟩, ⟨0, 0⟩] ∧
    (⟨1, 0⟩ : Position) ∈ getLinePositions ⟨0, 0⟩ ⟨2, 1⟩ ∧
    (⟨1, 0⟩ : Position) ∉ getLinePositions ⟨2, 1⟩ ⟨0, 0⟩ := by
  refine ⟨by decide, by decide, by decide, by decide⟩

theorem bresGo_step (x1 y1 sx sy dx dy : Int) (n : Nat) (x0 y0 err : Int)
    (hne : ((x0 == x1) && (y0 == y1)) = false) :
    bresGo x1 y1 sx sy dx dy (n + 1) x0 y0 err =
      ({ x := x0, y := y0 } : Position) ::
        bresGo x1 y1 sx sy dx dy n
          (if 2 * err > -dy then x0 + sx else x0)
          (if 2 * err < dx then y0 + sy else y0)
          (if 2 * err < dx then (if 2 * err > -dy then err - dy else err) + dx
           else (if 2 * err > -dy then err - dy else err)) := by
  simp only [bresGo, hne]
  simp

theorem bresGo_run (x1 y1 sx sy dx dy ax ay : Int)
    (hsx : sx = 1 ∨ sx = -1) (hsy : sy = 1 ∨ sy = -1)
    (hdx : 0 ≤ dx) (hdy : 0 ≤ dy)
    (hbx : x1 = ax + sx * dx) (hby : y1 = ay + sy * dy) :
    ∀ (n : Nat) (a b : Int), 0 ≤ a → a ≤ dx → 0 ≤ b → b ≤ dy →
      dx - a + (dy - b) < (n : Int) →
      ∃ T : List Position,
        bresGo x1 y1 sx sy dx dy n (ax + sx * a) (ay + sy * b)
            (dx - dy - a * dy + b * dx) =
          ({ x := ax + sx * a, y := ay + sy * b } : Position) :: T ∧
        (∀ p ∈ T, ∃ a' b', a + b < a' + b' ∧ 0 ≤ a' ∧ a' ≤ dx ∧ 0 ≤ b' ∧ b' ≤ dy ∧
          p = ({ x := ax + sx * a', y := ay + sy * b' } : Position)) ∧
        (({ x := ax + sx * a, y := ay + sy * b } : Position) :: T).count ⟨x1, y1⟩ = 1 := by
  have hsx0 : sx ≠ 0 := by rcases hsx with rfl | rfl <;> decide
  have hsy0 : sy ≠ 0 := by rcases hsy with rfl | rfl <;> decide
  have hposeq : ∀ a' b' a'' b'' : Int,
      ({ x := ax + sx * a', y := ay + sy * b' } : Position) =
        { x := ax + sx * a'', y := ay + sy * b'' } ↔ (a' = a'' ∧ b' = b'') := by
    intro a' b' a'' b''
    constructor
    · intro h
      have hx := congrArg Position.x h
      have hy := congrArg Position.y h
      simp only at hx hy
      constructor
      · exact mul_left_cancel₀ hsx0 (by omega)
      · exact mul_left_cancel₀ hsy0 (by omega)
    · rintro ⟨rfl, rfl⟩
      rfl
  intro n
  induction n with
  | zero =>
    intro a b _ _ _ _ hfuel
    simp at hfuel
    omega
  | succ n ih =>
    intro a b ha0 hadx hb0 hbdy hfuel
    by_cases hstop : a = dx ∧ b = dy
    · obtain ⟨rfl, rfl⟩ := hstop
      have hx : (ax + sx * a == x1) = true := by
        rw [hbx]; simp
      have hy : (ay + sy * b == y1) = true := by
        rw [hby]; simp
      refine ⟨[], ?_, ?_, ?_⟩
      · simp [bresGo, hx, hy]
      · intro p hp; cases hp
      · rw [hbx, hby]
        simp [List.count_cons]
    · -- not at the endpoint: the loop takes a step
      have hxy : ((ax + sx * a == x1) && (ay + sy * b == y1)) = false := by
        rcases Bool.eq_false_or_eq_true ((ax + sx * a == x1) && (ay + sy * b == y1)) with h | h
        · exfalso
          rw [Bool.and_eq_true] at h
          obtain ⟨h1, h2⟩ := h
          rw [beq_iff_eq, hbx] at h1
          rw [beq_iff_eq, hby] at h2
          exact hstop ⟨mul_left_cancel₀ hsx0 (by omega), mul_left_cancel₀ hsy0 (by omega)⟩
        · exact h
      rw [bresGo_step _ _ _ _ _ _ _ _ _ _ hxy]
      split_ifs with hCy hCx hCx
      -- note: split_ifs splits on `2*err < dx` (hCy) and `2*err > -dy` (hCx)
      · -- both x and y move
        have ha' : a < dx := by
          rcases lt_or_eq_of_le hadx with h | h
          · exact h
          · exfalso
            have hb' : b < dy := lt_of_le_of_ne hbdy (fun hh => hstop ⟨h, hh⟩)
            have hmul : 0 ≤ dx * (dy - 1 - b) :=
              mul_nonneg hdx (by omega)
            rw [← h] at hmul
            nlinarith [hmul]
        have hb' : b < dy := by
          rcases lt_or_eq_of_le hbdy with h | h
          · exact h
          · exfalso
            have ha'' : a < dx := lt_of_le_of_ne hadx (fun hh => hstop ⟨hh, h⟩)
            have hmul : 0 ≤ dy * (dx - 1 - a) :=
              mul_nonneg hdy (by omega)
            rw [← h] at hmul
            nlinarith [hmul]
        have harg1 : ax + sx * a + sx = ax + sx * (a + 1) := by ring
        have harg2 : ay + sy * b + sy = ay + sy * (b + 1) := by ring
        have harg3 : dx - dy - a * dy + b * dx - dy + dx =
            dx - dy - (a + 1) * dy + (b + 1) * dx := by ring
        rw [harg1, harg2, show dx - dy - a * dy + b * dx - dy + dx =
            dx - dy - (a + 1) * dy + (b + 1) * dx from by ring]
        obtain ⟨T', hTeq, hTel, hTcnt⟩ :=
          ih (a + 1) (b + 1) (by omega) (by omega) (by omega) (by omega) (by push_cast at hfuel ⊢; omega)
        rw [hTeq]
        refine ⟨_, rfl, ?_, ?_⟩
        · intro p hp
          rcases List.mem_cons.mp hp with rfl | hp'
          · exact ⟨a + 1, b + 1, by omega, by omega, by omega, by omega, by omega, rfl⟩
          · obtain ⟨a'', b'', hsum, h1, h2, h3, h4, rfl⟩ := hTel p hp'
            exact ⟨a'', b'', by omega, h1, h2, h3, h4, rfl⟩
        · rw [List.count_cons]
          have hne2 : (({ x := ax + sx * a, y := ay + sy * b } : Position) ==
              { x := x1, y := y1 }) = false := by
            rw [beq_eq_false_iff_ne]
            intro h
            rw [hbx, hby] at h
            exact hstop ⟨((hposeq a b dx dy).mp h).1, ((hposeq a b dx dy).mp h).2⟩
          simp only [hne2, Bool.false_eq_true, if_false, add_zero]
          exact hTcnt
      · -- only x moves
        have ha' : a < dx := by
          rcases lt_or_eq_of_le hadx with h | h
          · exact h
          · exfalso
            have hb' : b < dy := lt_of_le_of_ne hbdy (fun hh => hstop ⟨h, hh⟩)
            have hmul : 0 ≤ dx * (dy - 1 - b) :=
              mul_nonneg hdx (by omega)
            rw [← h] at hmul
            nlinarith [hmul]
        rw [show ax + sx * a + sx = ax + sx * (a + 1) from by ring,
          show dx - dy - a * dy + b * dx - dy =
            dx - dy - (a + 1) * dy + b * dx from by ring]
        obtain ⟨T', hTeq, hTel, hTcnt⟩ :=
          ih (a + 1) b (by omega) (by omega) (by omega) (by omega)
            (by push_cast at hfuel ⊢; omega)
        rw [hTeq]
        refine ⟨_, rfl, ?_, ?_⟩
        · intro p hp
          rcases List.mem_cons.mp hp with rfl | hp'
          · exact ⟨a + 1, b, by omega, by omega, by omega, by omega, by omega, rfl⟩
          · obtain ⟨a'', b'', hsum, h1, h2, h3, h4, rfl⟩ := hTel p hp'
            exact ⟨a'', b'', by omega, h1, h2, h3, h4, rfl⟩
        · rw [List.count_cons]
          have hne2 : (({ x := ax + sx * a, y := ay + sy * b } : Position) ==
              { x := x1, y := y1 }) = false := by
            rw [beq_eq_false_iff_ne]
            intro h
            rw [hbx, hby] at h
            exact hstop ⟨((hposeq a b dx dy).mp h).1, ((hposeq a b dx dy).mp h).2⟩
          simp only [hne2, Bool.false_eq_true, if_false, add_zero]
          exact hTcnt
      · -- only y moves
        have hb' : b < dy := by
          rcases lt_or_eq_of_le hbdy with h | h
          · exact h
          · exfalso
            have ha'' : a < dx := lt_of_le_of_ne hadx (fun hh => hstop ⟨hh, h⟩)
            have hmul : 0 ≤ dy * (dx - 1 - a) :=
              mul_nonneg hdy (by omega)
            rw [← h] at hmul
            nlinarith [hmul]
        rw [show ay + sy * b + sy = ay + sy * (b + 1) from by ring,
          show dx - dy - a * dy + b * dx + dx =
            dx - dy - a * dy + (b + 1) * dx from by ring]
        obtain ⟨T', hTeq, hTel, hTcnt⟩ :=
          ih a (b + 1) (by omega) (by omega) (by omega) (by omega)
            (by push_cast at hfuel ⊢; omega)
        rw [hTeq]
        refine ⟨_, rfl, ?_, ?_⟩
        · intro p hp
          rcases List.mem_cons.mp hp with rfl | hp'
          · exact ⟨a, b + 1, by omega, by omega, by omega, by omega, by omega, rfl⟩
          · obtain ⟨a'', b'', hsum, h1, h2, h3, h4, rfl⟩ := hTel p hp'
            exact ⟨a'', b'', by omega, h1, h2, h3, h4, rfl⟩
        · rw [List.count_cons]
          have hne2 : (({ x := ax + sx * a, y := ay + sy * b } : Position) ==
              { x := x1, y := y1 }) = false := by
            rw [beq_eq_false_iff_ne]
            intro h
            rw [hbx, hby] at h
            exact hstop ⟨((hposeq a b dx dy).mp h).1, ((hposeq a b dx dy).mp h).2⟩
          simp only [hne2, Bool.false_eq_true, if_false, add_zero]
          exact hTcnt
      · -- neither coordinate could move: impossible off the endpoint
        exfalso
        have hA : 2 * (dx - dy - a * dy + b * dx) ≤ -dy := not_lt.mp (by assumption)
        have hB : dx ≤ 2 * (dx - dy - a * dy + b * dx) := not_lt.mp (by assumption)
        have hdxdy : dx ≤ -dy := le_trans hB hA
        exact hstop ⟨by omega, by omega⟩

/-- C4 (amended): the two rasterizations need not contain the same point
set, but in `getLinePositions a b` (for every pair of integer endpoints,
hence also in the reversed call) each endpoint appears exactly once: the
list starts at `a`, ends at `b`, and revisits neither. -/
theorem getLinePositions_endpoints_once (a b : Position) :
    (getLinePositions a b).count a = 1 ∧ (getLinePositions a b).count b = 1 := by
  obtain ⟨sx, hsxdef, hsx, hbx⟩ :
      ∃ sx : Int, (if a.x < b.x then (1 : Int) else -1) = sx ∧
        (sx = 1 ∨ sx = -1) ∧ b.x = a.x + sx * |b.x - a.x| := by
    by_cases h : a.x < b.x
    · refine ⟨1, by rw [if_pos h], Or.inl rfl, ?_⟩
      rw [abs_of_nonneg (by omega)]
      omega
    · refine ⟨-1, by rw [if_neg h], Or.inr rfl, ?_⟩
      rw [abs_of_nonpos (by omega)]
      omega
  obtain ⟨sy, hsydef, hsy, hby⟩ :
      ∃ sy : Int, (if a.y < b.y then (1 : Int) else -1) = sy ∧
        (sy = 1 ∨ sy = -1) ∧ b.y = a.y + sy * |b.y - a.y| := by
    by_cases h : a.y < b.y
    · refine ⟨1, by rw [if_pos h], Or.inl rfl, ?_⟩
      rw [abs_of_nonneg (by omega)]
      omega
    · refine ⟨-1, by rw [if_neg h], Or.inr rfl, ?_⟩
      rw [abs_of_nonpos (by omega)]
      omega
  have hsx0 : sx ≠ 0 := by rcases hsx with rfl | rfl <;> decide
  have hsy0 : sy ≠ 0 := by rcases hsy with rfl | rfl <;> decide
  have hdx : (0 : Int) ≤ |b.x - a.x| := abs_nonneg _
  have hdy : (0 : Int) ≤ |b.y - a.y| := abs_nonneg _
  have hunfold : getLinePositions a b =
      bresGo b.x b.y sx sy |b.x - a.x| |b.y - a.y|
        (|b.x - a.x| + |b.y - a.y| + 1).toNat a.x a.y (|b.x - a.x| - |b.y - a.y|) := by
    unfold getLinePositions
    dsimp only
    rw [hsxdef, hsydef]
  obtain ⟨T, hTeq, hTel, hTcnt⟩ :=
    bresGo_run b.x b.y sx sy |b.x - a.x| |b.y - a.y| a.x a.y hsx hsy hdx hdy hbx hby
      (|b.x - a.x| + |b.y - a.y| + 1).toNat 0 0 le_rfl hdx le_rfl hdy
      (by rw [Int.toNat_of_nonneg (by omega)]; omega)
  rw [show a.x + sx * 0 = a.x from by ring, show a.y + sy * 0 = a.y from by ring,
    show |b.x - a.x| - |b.y - a.y| - 0 * |b.y - a.y| + 0 * |b.x - a.x| =
      |b.x - a.x| - |b.y - a.y| from by ring,
    show ({ x := a.x, y := a.y } : Position) = a from by cases a; rfl] at hTeq
  rw [show a.x + sx * 0 = a.x from by ring, show a.y + sy * 0 = a.y from by ring,
    show ({ x := a.x, y := a.y } : Position) = a from by cases a; rfl] at hTcnt
  have hlist : getLinePositions a b = a :: T := by rw [hunfold, hTeq]
  have hbpos : ({ x := b.x, y := b.y } : Position) = b := by cases b; rfl
  constructor
  · rw [hlist, List.count_cons]
    have hnotmem : a ∉ T := by
      intro hp
      obtain ⟨a', b', hsum, ha'0, -, hb'0, -, heq⟩ := hTel a hp
      have hx := congrArg Position.x heq
      have hy := congrArg Position.y heq
      simp only at hx hy
      have ha' : a' = 0 := by
        rcases mul_eq_zero.mp (show sx * a' = 0 from by omega) with h | h
        · exact absurd h hsx0
        · exact h
      have hb' : b' = 0 := by
        rcases mul_eq_zero.mp (show sy * b' = 0 from by omega) with h | h
        · exact absurd h hsy0
        · exact h
      omega
    rw [List.count_eq_zero.mpr hnotmem]
    simp
  · rw [hlist]
    rw [hbpos] at hTcnt
    exact hTcnt
